import Mathlib

/-!
Verification of the xclim locales/internationalization subsystem
(`xclim/locales/__init__.py`) and the growing-degree-days indicator
scenarios of `tests/test_temperature.py`.

Python dictionaries are modelled as ordered association lists
`List (String × α)`: insertion of a fresh key appends at the end,
updating an existing key rewrites it in place, matching CPython dict
semantics. Keyword-argument dictionaries (`kwargs`) are modelled with
string values only, since every behaviour under study concerns string
valued keyword arguments (the `isinstance(val, str)` guard of
`TranslatableStr.format` is then always true).
-/

/-- Lookup of a key in an association list modelling a Python dict:
first binding wins (keys of a real dict are unique). Models `d[k]` /
`d.get(k)`. -/
def dictGet? {α : Type} (l : List (String × α)) (k : String) : Option α :=
  (l.find? (fun p => p.1 == k)).map (fun p => p.2)

/-- Model of `d[k] = v` on a Python dict: rewrite the binding in place
when the key is present, append it otherwise. -/
def dictSet {α : Type} (l : List (String × α)) (k : String) (v : α) : List (String × α) :=
  if l.any (fun p => p.1 == k) then l.map (fun p => if p.1 == k then (k, v) else p)
  else l ++ [(k, v)]

/-- Model of `d.update(upds)` on a Python dict: apply `dictSet` for each
binding of `upds` in order. -/
def dictUpdate {α : Type} (l : List (String × α)) (upds : List (String × α)) :
    List (String × α) :=
  upds.foldl (fun acc p => dictSet acc p.1 p.2) l

/-- Model of the Python slice `val[1:-1]`: drop the first and the last
character (empty result for strings of length at most two). Operates on
the code-point list, as Python slicing does. -/
def stripEnds (s : String) : String :=
  String.mk ((s.data.drop 1).dropLast)

/-- Model of `val.startswith("\x7b")`: the first character is an opening
brace. -/
def startsWithBrace (s : String) : Bool :=
  match s.data with
  | [] => false
  | c :: _ => c == '\x7b'

/-- Recursive core of the model of CPython `str.format` restricted to
simple named replacement fields (no conversions, no format specs, no
positional auto-numbering — none are used by the code under study).
The first argument is `none` outside a replacement field and
`some acc` inside one, `acc` holding the field name read so far.
`none` as a result models the exceptions `str.format` raises
(`KeyError` for a missing field name, `ValueError` for stray braces). -/
def pyFormatGo (kwargs : List (String × String)) :
    Option (List Char) → List Char → Option String
  | none, [] => some ""
  | none, '\x7b' :: '\x7b' :: cs => (pyFormatGo kwargs none cs).map (fun r => "\x7b" ++ r)
  | none, '\x7d' :: '\x7d' :: cs => (pyFormatGo kwargs none cs).map (fun r => "\x7d" ++ r)
  | none, '\x7b' :: cs => pyFormatGo kwargs (some []) cs
  | none, '\x7d' :: _ => none
  | none, c :: cs => (pyFormatGo kwargs none cs).map (fun r => String.singleton c ++ r)
  | some _, [] => none
  | some acc, '\x7d' :: cs =>
      match dictGet? kwargs (String.mk acc) with
      | none => none
      | some v => (pyFormatGo kwargs none cs).map (fun r => v ++ r)
  | some acc, c :: cs => pyFormatGo kwargs (some (acc ++ [c])) cs

/-- Model of `template.format(**kwargs)` for simple named fields. -/
def pyFormat (s : String) (kwargs : List (String × String)) : Option String :=
  pyFormatGo kwargs none s.data

/-- Model of the guard of `TranslatableStr.format`:
`isinstance(val, str) and val.startswith("\x7b") and val[1:-1] in self.translations`. -/
def expandGuard (tr : List (String × List String)) (val : String) : Bool :=
  startsWithBrace val && (dictGet? tr (stripEnds val)).isSome

/-- Model of the body of the guard in `TranslatableStr.format`:
`kwargs.update(\x7bf"\x7bkey\x7d\x7bmodifier\x7d": value for modifier, value
in zip(self.modifiers, self.translations[val[1:-1]])\x7d)`. -/
def expandOne (tr : List (String × List String)) (mods : List String)
    (acc : List (String × String)) (key val : String) : List (String × String) :=
  dictUpdate acc
    ((mods.zip ((dictGet? tr (stripEnds val)).getD [])).map
      (fun mv => (key ++ mv.1, mv.2)))

/-- Model of one iteration of the kwargs preprocessing loop of
`TranslatableStr.format`: update the live dict `acc` when the guard
accepts the binding `p` taken from the iterated copy. -/
def expandStep (tr : List (String × List String)) (mods : List String)
    (acc : List (String × String)) (p : String × String) : List (String × String) :=
  if expandGuard tr p.2 then expandOne tr mods acc p.1 p.2 else acc

/-- Model of the kwargs preprocessing loop of `TranslatableStr.format`:
`for key, val in kwargs.copy().items(): if ...: kwargs.update(...)`.
The iteration runs over the copy (the original binding list) while the
updates accumulate in the live dict (the fold accumulator, started at
the original dict). -/
def expandKwargs (tr : List (String × List String)) (mods : List String)
    (kwargs : List (String × String)) : List (String × String) :=
  kwargs.foldl (expandStep tr mods) kwargs

/-- Model of `xclim.locales.TranslatableStr`: a `UserString` carrying a
translation table and a modifier list. `translations` is optional
because `format` guards on `self.translations is not None`. -/
structure TranslatableStr where
  data : String
  translations : Option (List (String × List String))
  modifiers : List String
  deriving DecidableEq

/-- Model of `TranslatableStr.format(**kwargs)`: expand the translatable
keyword arguments when a translation table is present, then delegate to
`str.format`. Positional arguments are not modelled (no call under
study passes any). -/
def TranslatableStr.format (ts : TranslatableStr) (kwargs : List (String × String)) :
    Option String :=
  match ts.translations with
  | none => pyFormat ts.data kwargs
  | some tr => pyFormat ts.data (expandKwargs tr ts.modifiers kwargs)

/-- Model of `locale.split("-")[0]`: the characters before the first
dash (the whole string when no dash occurs). -/
def langSub (s : String) : String :=
  String.mk (s.data.takeWhile (fun c => c != '-'))

/-- Model of `xclim.locales.get_best_locale`, with the result of
`list_locales()` (the bundled locale tags, in listing order) passed
explicitly as `available`. -/
def get_best_locale (available : List String) (locale : String) : Option String :=
  if locale ∈ available then some locale
  else
    let l := langSub locale
    if l ∈ available then some l
    else if l ∈ available.map langSub then available.find? (fun av => langSub av == l)
    else none

/-- Model of a parsed locale JSON file: the reserved `attrs_mapping`
entry (kept as an association list so that its `modifiers` key can be
popped exactly as the code does) and the indicator entries
(`"module.identifier"` mapped to attribute-name/text pairs). -/
structure LocDict where
  attrs_mapping : List (String × List String)
  indicators : List (String × List (String × String))
  deriving DecidableEq

/-- Model of the locale arguments accepted throughout the module: a
plain IETF tag, a `(tag, dict)` pair, or a `(tag, path)` pair. -/
inductive LocaleSpec where
  | tag (t : String)
  | dictPair (t : String) (d : LocDict)
  | pathPair (t : String) (path : String)
  deriving DecidableEq

/-- External collaborators of the module: the bundled-resource listing
(`list_locales`), the bundled JSON resources, and the filesystem (file
existence test and JSON file loading). -/
structure LocaleEnv where
  available : List String
  bundled : String → LocDict
  fileExists : String → Bool
  fileDict : String → LocDict

/-- Rendering of the value interpolated into the
`UnavailableLocaleError` message by the f-string, for the values raised
from `get_local_dict` (`None` or a tag string). -/
def pyShow : Option String → String
  | none => "None"
  | some s => s

/-- Model of the message built by `UnavailableLocaleError.__init__`. -/
def unavailableMsg (x : Option String) : String :=
  "Locale " ++ pyShow x ++
    " not available. Use `xclim.locales.list_locales()` to see available languages."

/-- Model of `xclim.locales.get_local_dict`. The error payload is the
value the code passes to `UnavailableLocaleError` — for a plain tag the
code rebinds `locale = get_best_locale(locale)` before raising, so the
payload is always `none` there. -/
def get_local_dict (env : LocaleEnv) : LocaleSpec → Except (Option String) (String × LocDict)
  | .tag t =>
    match get_best_locale env.available t with
    | none => .error none
    | some loc => .ok (loc, env.bundled loc)
  | .dictPair t d => .ok (t, d)
  | .pathPair t p => .ok (t, env.fileDict p)

/-- Model of the validation test of the loop in `set_locales`: a plain
tag is invalid when it does not resolve, a `(tag, path)` pair is invalid
when the path is not an existing file, a `(tag, dict)` pair is always
valid. -/
def invalidSpec (env : LocaleEnv) : LocaleSpec → Bool
  | .tag t => (get_best_locale env.available t).isNone
  | .dictPair _ _ => false
  | .pathPair _ p => !env.fileExists p

/-- Model of a call `set_locales(*args)` against a registry holding
`cur`: the loop raises `UnavailableLocaleError` at the first invalid
argument, before the single mutation `LOCALES[:] = locales`; the result
is the registry after the call together with the raised payload, if
any. -/
def set_locales_run (env : LocaleEnv) (cur : List LocaleSpec) (args : List LocaleSpec) :
    List LocaleSpec × Option LocaleSpec :=
  match args.find? (invalidSpec env) with
  | some l => (cur, some l)
  | none => (args, none)

/-- Model of one use of the `metadata_locale` context manager around a
body: `__enter__` snapshots `LOCALES[:]` and calls `set_locales` with
the overrides (an exception there skips both body and `__exit__`);
`__exit__` calls `set_locales` with the snapshot and is invoked whether
the body succeeded (`bodyOk = true`) or raised (`bodyOk = false`), and
since it returns `None` a body exception keeps propagating. The result
is the final registry and whether an exception escapes the `with`
block. -/
def metadata_locale_run (env : LocaleEnv) (init overrides : List LocaleSpec)
    (bodyOk : Bool) : List LocaleSpec × Bool :=
  let old_locales := init
  match set_locales_run env init overrides with
  | (st, some _) => (st, true)
  | (st, none) =>
    let ex := set_locales_run env st old_locales
    (ex.1, ex.2.isSome || !bodyOk)

/-- Model of the indicator objects consumed by `get_local_attrs`:
`module1` is `indicator.__module__.split(".")[1]` and the four string
fields are the translatable attributes. -/
structure Indicator where
  module1 : String
  identifier : String
  long_name : String
  description : String
  comment : String
  title : String

/-- Model of `getattr(indicator, name)` for the translatable attribute
names. -/
def indicatorAttr (ind : Indicator) : String → String
  | "long_name" => ind.long_name
  | "description" => ind.description
  | "comment" => ind.comment
  | "title" => ind.title
  | _ => ""

/-- Model of `xclim.locales.TRANSLATABLE_ATTRS`. -/
def TRANSLATABLE_ATTRS : List String :=
  ["long_name", "description", "comment", "title"]

/-- Errors raised by `get_local_attrs`: the `ValueError` of the
`append_locale_name` check, or a propagated `UnavailableLocaleError`
from `get_local_dict`. -/
inductive AttrsError where
  | valueError
  | unavailable (x : Option String)
  deriving DecidableEq

/-- Model of one iteration of the `for name in TRANSLATABLE_ATTRS` loop
of `get_local_attrs`: the condition models
`(names is None or name in names) and (fill_missing or name in local_attrs)`;
`ind_dict` and `mods` model
`ind_dict = loc_dict["attrs_mapping"].copy(); mods = ind_dict.pop("modifiers", [""])`. -/
def attrStep (ind : Indicator) (names : Option (List String)) (fill_missing : Bool)
    (loc_name : String) (loc_dict : LocDict) (local_attrs : List (String × String))
    (acc : List (String × TranslatableStr)) (name : String) :
    List (String × TranslatableStr) :=
  if (match names with
      | none => true
      | some ns => ns.contains name)
      && (fill_missing || (dictGet? local_attrs name).isSome) then
    let ind_dict := loc_dict.attrs_mapping.filter (fun p => !(p.1 == "modifiers"))
    let mods := (dictGet? loc_dict.attrs_mapping "modifiers").getD [""]
    dictSet acc (name ++ loc_name)
      ⟨(dictGet? local_attrs name).getD (indicatorAttr ind name), some ind_dict, mods⟩
  else acc

/-- Model of the body of the `for locale in locales` loop of
`get_local_attrs`, after `get_local_dict` succeeded with
`(loc_name0, loc_dict)`: either warn and contribute nothing, or add one
`TranslatableStr` per selected translatable attribute. -/
def processLocale (ind : Indicator) (append_locale_name : Bool)
    (names : Option (List String)) (fill_missing : Bool)
    (attrs : List (String × TranslatableStr)) (loc_name0 : String) (loc_dict : LocDict) :
    List (String × TranslatableStr) :=
  let loc_name := if append_locale_name then "_" ++ loc_name0 else ""
  let ind_name := ind.module1 ++ "." ++ ind.identifier
  match dictGet? loc_dict.indicators ind_name with
  | none => attrs
  | some local_attrs =>
    TRANSLATABLE_ATTRS.foldl (attrStep ind names fill_missing loc_name loc_dict local_attrs)
      attrs

/-- Recursion over the locales of `get_local_attrs`, threading the
`attrs` dict; a failing `get_local_dict` propagates out of the loop. -/
def get_local_attrs_go (env : LocaleEnv) (ind : Indicator) (append_locale_name : Bool)
    (names : Option (List String)) (fill_missing : Bool) :
    List LocaleSpec → List (String × TranslatableStr) →
      Except AttrsError (List (String × TranslatableStr))
  | [], attrs => .ok attrs
  | locale :: rest, attrs =>
    match get_local_dict env locale with
    | .error e => .error (.unavailable e)
    | .ok (ln, ld) =>
      get_local_attrs_go env ind append_locale_name names fill_missing rest
        (processLocale ind append_locale_name names fill_missing attrs ln ld)

/-- Model of `xclim.locales.get_local_attrs`: default the locale list to
the registry `LOCALES` when empty, run the `append_locale_name`
validation, then process each locale in order starting from an empty
`attrs` dict. -/
def get_local_attrs (env : LocaleEnv) (ind : Indicator)
    (locales LOCALES : List LocaleSpec) (names : Option (List String))
    (fill_missing append_locale_name : Bool) :
    Except AttrsError (List (String × TranslatableStr)) :=
  let locs := if locales.isEmpty then LOCALES else locales
  if !append_locale_name && locs.length > 1 then .error .valueError
  else get_local_attrs_go env ind append_locale_name names fill_missing locs []

/-- Modelled from the spec: the indicator function
`growing_degree_days` lives in `xclim/temperature.py`, which is not
part of the sources under study (only its test is). Following the spec
— strict inequality `> threshold`, values at or below the threshold
excluded entirely, sum of the excesses over the threshold per resample
period — and the reference computation of the test
(`(x1[x1 > thresh] - thresh).sum()`), the value of one resample period
is the sum of `v - threshold` over the values `v` strictly above the
threshold. Exact rational arithmetic stands in for the floating-point
arithmetic of the original. -/
def growing_degree_days (thresh : ℚ) (vals : List ℚ) : ℚ :=
  ((vals.filter (fun v => thresh < v)).map (fun v => v - thresh)).sum

/-- Invariant claimed of translatable strings: every translation entry
of the table is as long as the modifier list. -/
def tsInvariant (ts : TranslatableStr) : Prop :=
  ∀ p ∈ ts.translations.getD [], p.2.length = ts.modifiers.length

/-- Well-formedness of a locale dictionary, as the documented file
format prescribes: every `attrs_mapping` entry other than the reserved
`modifiers` key is as long as the modifier list the code will pop
(`ind_dict.pop("modifiers", [""])`). -/
def LocDict.wellFormed (d : LocDict) : Prop :=
  ∀ p ∈ d.attrs_mapping, p.1 ≠ "modifiers" →
    p.2.length = ((dictGet? d.attrs_mapping "modifiers").getD [""]).length

/-- Well-formedness of a locale argument: a `(tag, dict)` pair carries a
well-formed dictionary; plain tags and `(tag, path)` pairs impose
nothing (their dictionaries come from the environment). -/
def specWellFormed : LocaleSpec → Prop
  | .dictPair _ d => d.wellFormed
  | _ => True

/-- Environment with one bundled locale `fr` whose resources are empty,
used to instantiate the registry theorems. -/
def envT : LocaleEnv :=
  ⟨["fr"], fun _ => ⟨[], []⟩, fun _ => false, fun _ => ⟨[], []⟩⟩

/-- Environment with the bundled locales `fr` and `en-US`, used to
instantiate the context-manager theorem. -/
def envT2 : LocaleEnv :=
  ⟨["fr", "en-US"], fun _ => ⟨[], []⟩, fun _ => false, fun _ => ⟨[], []⟩⟩

/-- Sample indicator used to instantiate the attribute-extractor
theorems. -/
def indW : Indicator :=
  ⟨"atmos", "gdd", "Growing degree days", "Sum of degree days", "", ""⟩

/-- Sample well-formed locale dictionary (two modifiers, one aligned
translation entry, one indicator entry). -/
def dW : LocDict :=
  ⟨[("modifiers", ["", "_f"]), ("YS", ["annuel", "annuelle"])],
   [("atmos.gdd", [("long_name", "Degres-jours de croissance")])]⟩

/-- Environment whose every resource is the well-formed dictionary
`dW`, with one bundled locale `fr`. -/
def envW : LocaleEnv :=
  ⟨["fr"], fun _ => dW, fun _ => true, fun _ => dW⟩

/-- Concrete result of `get_local_attrs` over `envW`, used to
instantiate the invariant theorem. -/
def resW : List (String × TranslatableStr) :=
  (get_local_attrs envW indW [LocaleSpec.tag "fr"] [] none true true).toOption.getD []

/-- Translatable string stored under `long_name_fr` in `resW`. -/
def tsW : TranslatableStr :=
  ⟨"Degres-jours de croissance", some [("YS", ["annuel", "annuelle"])], ["", "_f"]⟩

/-- Membership after a Python dict assignment: an element of the updated
dict was already present or is the new binding. -/
theorem mem_dictSet {α : Type} {l : List (String × α)} {k : String} {v : α}
    {q : String × α} (h : q ∈ dictSet l k v) : q ∈ l ∨ q = (k, v) := by
  unfold dictSet at h
  split at h
  · obtain ⟨p, hp, he⟩ := List.mem_map.mp h
    by_cases hk : p.1 == k
    · right
      rw [if_pos hk] at he
      exact he.symm
    · left
      rw [if_neg hk] at he
      rwa [he] at hp
  · rcases List.mem_append.mp h with h1 | h1
    · exact Or.inl h1
    · right
      simpa using h1

/-- A binding with a different key survives a Python dict assignment. -/
theorem mem_dictSet_of_ne {α : Type} {l : List (String × α)} {k key : String}
    {v val : α} (h : (key, val) ∈ l) (hne : key ≠ k) : (key, val) ∈ dictSet l k v := by
  unfold dictSet
  split
  · exact List.mem_map.mpr ⟨(key, val), h, by simp [hne]⟩
  · exact List.mem_append_left _ h

/-- A binding whose key differs from every updated key survives a
Python dict `update`. -/
theorem mem_dictUpdate_of_ne {α : Type} {key : String} {val : α}
    (upds : List (String × α)) :
    ∀ (l : List (String × α)), (key, val) ∈ l → (∀ p ∈ upds, key ≠ p.1) →
      (key, val) ∈ dictUpdate l upds := by
  induction upds with
  | nil =>
    intro l h _
    exact h
  | cons u us ih =>
    intro l h hne
    simp only [dictUpdate, List.foldl_cons] at *
    exact ih (dictSet l u.1 u.2)
      (mem_dictSet_of_ne h (hne u (List.mem_cons_self u us)))
      (fun p hp => hne p (List.mem_cons_of_mem u hp))

/-- The preprocessing loop of `TranslatableStr.format` leaves the dict
unchanged when no iterated binding passes the guard. -/
theorem expand_loop_id (tr : List (String × List String)) (mods : List String) :
    ∀ (l acc : List (String × String)), (∀ p ∈ l, expandGuard tr p.2 = false) →
      l.foldl (expandStep tr mods) acc = acc := by
  intro l
  induction l with
  | nil =>
    intro acc _
    rfl
  | cons p ps ih =>
    intro acc h
    have hp : expandGuard tr p.2 = false := h p (List.mem_cons_self p ps)
    simp only [List.foldl_cons, expandStep, hp, Bool.false_eq_true, if_false]
    exact ih acc (fun q hq => h q (List.mem_cons_of_mem p hq))

/-- A binding of the original kwargs survives the preprocessing loop of
`TranslatableStr.format` whenever no iterated binding that passes the
guard can write a colliding modifier-suffixed key. -/
theorem mem_expand_loop (tr : List (String × List String)) (mods : List String)
    (key val : String) :
    ∀ (l acc : List (String × String)), (key, val) ∈ acc →
      (∀ p ∈ l, expandGuard tr p.2 = true → ∀ m ∈ mods, ¬(p.1 ++ m = key)) →
      (key, val) ∈ l.foldl (expandStep tr mods) acc := by
  intro l
  induction l with
  | nil =>
    intro acc h _
    exact h
  | cons p ps ih =>
    intro acc h hcol
    simp only [List.foldl_cons]
    apply ih
    · unfold expandStep
      split
      · next hg =>
        unfold expandOne
        apply mem_dictUpdate_of_ne _ _ h
        intro q hq
        obtain ⟨mv, hmv, hq2⟩ := List.mem_map.mp hq
        have hm := (List.of_mem_zip hmv).1
        intro he
        apply hcol p (List.mem_cons_self p ps) hg mv.1 hm
        rw [← hq2] at he
        exact he.symm
      · exact h
    · intro q hq hg m hm
      exact hcol q (List.mem_cons_of_mem p hq) hg m hm

/-- C1: against the claim, `TranslatableStr.format` adds one keyword per
modifier but never removes the original keyword: with translations
`nice = [beau, belle]` and modifiers `[_m, _f]`, the kwargs delegated to
`str.format` for `a = "\x7bnice\x7d"` still bind `a` to `"\x7bnice\x7d"`
(the own docstring of the method states the keyword is removed), and a
template referencing `\x7ba\x7d` formats to `"X is \x7bnice\x7d"`
instead of failing on a missing keyword. -/
theorem format_keeps_original_keyword :
    expandKwargs [("nice", ["beau", "belle"])] ["_m", "_f"] [("a", "\x7bnice\x7d")] =
        [("a", "\x7bnice\x7d"), ("a_m", "beau"), ("a_f", "belle")] ∧
    TranslatableStr.format
        ⟨"X is \x7ba\x7d", some [("nice", ["beau", "belle"])], ["_m", "_f"]⟩
        [("a", "\x7bnice\x7d")] = some "X is \x7bnice\x7d" := by
  exact ⟨by decide, by decide⟩

/-- C2: with translations `nice = [beau, belle]`, modifiers `[_m, _f]`
and template `"X is \x7ba_m\x7d"`, calling `format` with
`a = "\x7bnice\x7d"` returns `"X is beau"`, but calling with `a = "nice"`
does not return `"X is nice"`: no expansion happens, the placeholder
`a_m` stays unmatched and `str.format` raises a `KeyError` (result
`none` in the model), contradicting the docstring example of the
method. -/
theorem format_unbraced_value_raises :
    TranslatableStr.format
        ⟨"X is \x7ba_m\x7d", some [("nice", ["beau", "belle"])], ["_m", "_f"]⟩
        [("a", "\x7bnice\x7d")] = some "X is beau" ∧
    TranslatableStr.format
        ⟨"X is \x7ba_m\x7d", some [("nice", ["beau", "belle"])], ["_m", "_f"]⟩
        [("a", "nice")] = none := by
  exact ⟨by decide, by decide⟩

/-- C3, counterexample: the guard of `TranslatableStr.format` tests only
`val.startswith("\x7b")` and `val[1:-1] in translations`, not the exact
shape `\x7btoken\x7d`. The value `"\x7bnicex"` is not a brace-wrapped
translation key (the only key `nice` wraps to `"\x7bnice\x7d"`), yet it
triggers a full expansion; and the keyword `a_m` bound to the plain
value `"hello"` is not passed through unmodified, the expansion of the
keyword `a` overwriting it with `"beau"`. -/
theorem expansion_shape_counterexample :
    expandKwargs [("nice", ["beau", "belle"])] ["_m", "_f"] [("a", "\x7bnicex")] =
        [("a", "\x7bnicex"), ("a_m", "beau"), ("a_f", "belle")] ∧
    ("\x7b" ++ "nice" ++ "\x7d") ≠ "\x7bnicex" ∧
    dictGet?
        (expandKwargs [("nice", ["beau", "belle"])] ["_m", "_f"]
          [("a", "\x7bnice\x7d"), ("a_m", "hello")]) "a_m" = some "beau" := by
  exact ⟨by decide, by decide, by decide⟩

/-- C3, amended: a keyword argument triggers no expansion unless its
value starts with an opening brace and its value stripped of first and
last character is a key of the translation table: when no keyword
satisfies that guard the delegated kwargs are exactly the originals, and
an individual non-triggering binding survives unmodified provided no
triggering keyword expands onto its name. -/
theorem expansion_passthrough (tr : List (String × List String)) (mods : List String)
    (kwargs : List (String × String)) :
    ((∀ p ∈ kwargs, expandGuard tr p.2 = false) →
      expandKwargs tr mods kwargs = kwargs) ∧
    (∀ key val, (key, val) ∈ kwargs → expandGuard tr val = false →
      (∀ p ∈ kwargs, expandGuard tr p.2 = true → ∀ m ∈ mods, ¬(p.1 ++ m = key)) →
      (key, val) ∈ expandKwargs tr mods kwargs) := by
  constructor
  · intro h
    exact expand_loop_id tr mods kwargs kwargs h
  · intro key val hmem _ hcol
    exact mem_expand_loop tr mods key val kwargs kwargs hmem hcol

/-- Witness for the amended C3 at concrete inputs: a kwargs dict with no
triggering value passes through whole, and a plain binding next to a
triggering one survives. -/
theorem expansion_passthrough_witness :
    expandKwargs [("nice", ["beau"])] ["_m"] [("b", "hello")] = [("b", "hello")] ∧
    ("a2", "plain") ∈
      expandKwargs [("nice", ["beau"])] ["_m"] [("a", "\x7bnice\x7d"), ("a2", "plain")] := by
  constructor
  · exact (expansion_passthrough [("nice", ["beau"])] ["_m"] [("b", "hello")]).1 (by decide)
  · exact (expansion_passthrough [("nice", ["beau"])] ["_m"]
      [("a", "\x7bnice\x7d"), ("a2", "plain")]).2 "a2" "plain" (by decide) (by decide)
      (by decide)

/-- C6: `get_best_locale` returns the requested tag when available
exactly, else the region-stripped tag when that is available exactly,
else the first available locale (in listing order, which is what
`List.find?` computes) whose own stripped tag equals the requested
stripped tag — `find?` being `none` exactly when no bundled locale
matches. -/
theorem get_best_locale_cases (available : List String) (locale : String) :
    (locale ∈ available → get_best_locale available locale = some locale) ∧
    (locale ∉ available → langSub locale ∈ available →
      get_best_locale available locale = some (langSub locale)) ∧
    (locale ∉ available → langSub locale ∉ available →
      get_best_locale available locale =
        available.find? (fun av => langSub av == langSub locale)) := by
  refine ⟨?_, ?_, ?_⟩
  · intro h
    simp [get_best_locale, h]
  · intro h1 h2
    simp [get_best_locale, h1, h2]
  · intro h1 h2
    by_cases h3 : langSub locale ∈ available.map langSub
    · simp [get_best_locale, h1, h2, h3]
    · simp only [get_best_locale, if_neg h1, if_neg h2, if_neg h3]
      symm
      apply List.find?_eq_none.mpr
      intro av hav
      simp only [beq_iff_eq]
      intro he
      exact h3 (List.mem_map.mpr ⟨av, hav, he⟩)

/-- Witness for C6 at the concrete inputs of the docstring of
`get_best_locale`: among `[fr, fr-BE, en-US]`, the tag `en-GB` has no
exact match and no stripped exact match, and resolves to `en-US`, the
first listed locale with stripped tag `en`. -/
theorem get_best_locale_cases_witness :
    get_best_locale ["fr", "fr-BE", "en-US"] "en-GB" = some "en-US" := by
  have h := (get_best_locale_cases ["fr", "fr-BE", "en-US"] "en-GB").2.2
    (by decide) (by decide)
  exact h.trans (by decide)

/-- C10: for a plain tag that does not resolve, `get_local_dict` raises
`UnavailableLocaleError`, but the code rebinds
`locale = get_best_locale(locale)` before raising, so the payload is
`None` and the message reads `Locale None not available...` instead of
naming the requested tag. -/
theorem get_local_dict_error_names_none (env : LocaleEnv) (t : String)
    (h : get_best_locale env.available t = none) :
    get_local_dict env (LocaleSpec.tag t) = .error none ∧
    unavailableMsg none =
      "Locale None not available. Use `xclim.locales.list_locales()` to see available languages." := by
  constructor
  · simp [get_local_dict, h]
  · rfl

/-- Witness for C10: the tag `zz` does not resolve against the bundled
listing `[fr]`, and the raised error carries `None`. -/
theorem get_local_dict_error_names_none_witness :
    get_local_dict envT (LocaleSpec.tag "zz") = .error none ∧
    unavailableMsg none =
      "Locale None not available. Use `xclim.locales.list_locales()` to see available languages." :=
  get_local_dict_error_names_none envT "zz" (by decide)

/-- C9: over one resample period with threshold `T` and values
`[T+1, T+2, T-1]`, `growing_degree_days` returns `1 + 2 = 3`; the value
at `T-1`, not strictly above the threshold, is excluded from the
filtered list entirely rather than clipped to zero and summed. -/
theorem growing_degree_days_scenario (T : ℚ) :
    growing_degree_days T [T + 1, T + 2, T - 1] = 3 ∧
    ([T + 1, T + 2, T - 1] : List ℚ).filter (fun v => T < v) = [T + 1, T + 2] := by
  have h1 : T < T + 1 := by linarith
  have h2 : T < T + 2 := by linarith
  have h3 : ¬T < T - 1 := by linarith
  constructor
  · simp [growing_degree_days, List.filter, h1, h2, h3]
    ring
  · simp [List.filter, h1, h2, h3]

/-- C4: when the argument list of `set_locales` contains an invalid
entry, the call raises `UnavailableLocaleError` carrying the first
offending entry (the first argument satisfying `invalidSpec`, which is
what `List.find?` computes) and the registry keeps exactly its previous
contents, the single mutation `LOCALES[:] = locales` coming after the
validation loop. -/
theorem set_locales_invalid_atomic (env : LocaleEnv) (cur args : List LocaleSpec)
    (h : args.any (invalidSpec env) = true) :
    set_locales_run env cur args = (cur, args.find? (invalidSpec env)) ∧
    (args.find? (invalidSpec env)).isSome = true := by
  unfold set_locales_run
  cases hf : args.find? (invalidSpec env) with
  | none =>
    exfalso
    obtain ⟨x, hx, hpx⟩ := List.any_eq_true.mp h
    exact absurd hpx (by simpa using List.find?_eq_none.mp hf x hx)
  | some l =>
    exact ⟨rfl, rfl⟩

/-- Witness for C4: with bundled listing `[fr]`, the arguments
`[zz, qq]` are both unresolvable; the error names `zz`, the first
offending entry, and the registry stays `[fr]`. -/
theorem set_locales_invalid_atomic_witness :
    set_locales_run envT [LocaleSpec.tag "fr"] [LocaleSpec.tag "zz", LocaleSpec.tag "qq"] =
      ([LocaleSpec.tag "fr"], some (LocaleSpec.tag "zz")) := by
  have h := set_locales_invalid_atomic envT [LocaleSpec.tag "fr"]
    [LocaleSpec.tag "zz", LocaleSpec.tag "qq"] (by decide)
  exact h.1.trans (by decide)

/-- C5: for every registry whose entries are valid and every valid
override list, one use of the `metadata_locale` context manager leaves
the registry exactly as before entry, whether the body succeeded or
raised (`bodyOk` covers both exit paths, `__exit__` running the same
restore either way). -/
theorem metadata_locale_restores (env : LocaleEnv) (init overrides : List LocaleSpec)
    (bodyOk : Bool) (hinit : ∀ l ∈ init, invalidSpec env l = false)
    (hov : ∀ l ∈ overrides, invalidSpec env l = false) :
    (metadata_locale_run env init overrides bodyOk).1 = init := by
  have h1 : overrides.find? (invalidSpec env) = none :=
    List.find?_eq_none.mpr (by simpa using hov)
  have h2 : init.find? (invalidSpec env) = none :=
    List.find?_eq_none.mpr (by simpa using hinit)
  simp [metadata_locale_run, set_locales_run, h1, h2]

/-- Witness for C5: overriding the registry `[en-US]` with `[fr]` inside
the context manager and exiting through an exception restores
`[en-US]`. -/
theorem metadata_locale_restores_witness :
    (metadata_locale_run envT2 [LocaleSpec.tag "en-US"] [LocaleSpec.tag "fr"] false).1 =
      [LocaleSpec.tag "en-US"] :=
  metadata_locale_restores envT2 [LocaleSpec.tag "en-US"] [LocaleSpec.tag "fr"] false
    (by decide) (by decide)

/-- C7: `get_local_attrs` with `append_locale_name = False` and more
than one effective locale (explicit, or defaulted from the registry when
none is passed) fails with the `ValueError` of the option check, before
any locale resolution or lookup: the result is the validation error even
for locale arguments that could not be resolved at all. -/
theorem get_local_attrs_multi_locale_valueError (env : LocaleEnv) (ind : Indicator)
    (locales LOCALES : List LocaleSpec) (names : Option (List String)) (fm : Bool)
    (h : (if locales.isEmpty then LOCALES else locales).length > 1) :
    get_local_attrs env ind locales LOCALES names fm false = .error .valueError := by
  have h2 : (if locales = [] then LOCALES else locales).length > 1 := by
    simpa using h
  simp [get_local_attrs, h2]

/-- Witness for C7: two unresolvable tags with suffixing disabled give
the validation error (not an unavailable-locale error), the tags taken
from the registry default. -/
theorem get_local_attrs_multi_locale_valueError_witness :
    get_local_attrs envT indW [] [LocaleSpec.tag "zz", LocaleSpec.tag "qq"] none true
        false = .error .valueError :=
  get_local_attrs_multi_locale_valueError envT indW []
    [LocaleSpec.tag "zz", LocaleSpec.tag "qq"] none true (by decide)

/-- Preservation of a predicate along a left fold. -/
theorem foldl_preserve {α β : Type} (P : α → Prop) (f : α → β → α)
    (hstep : ∀ a b, P a → P (f a b)) :
    ∀ (l : List β) (a : α), P a → P (l.foldl f a) := by
  intro l
  induction l with
  | nil =>
    intro a h
    exact h
  | cons b bs ih =>
    intro a h
    exact ih (f a b) (hstep a b h)

/-- One iteration of the attribute loop over a well-formed locale
dictionary preserves the modifier-length invariant of every stored
translatable string. -/
theorem attrStep_invariant (ind : Indicator) (names : Option (List String))
    (fm : Bool) (loc_name : String) (ld : LocDict) (la : List (String × String))
    (acc : List (String × TranslatableStr)) (name : String)
    (hld : ld.wellFormed) (hacc : ∀ q ∈ acc, tsInvariant q.2) :
    ∀ q ∈ attrStep ind names fm loc_name ld la acc name, tsInvariant q.2 := by
  unfold attrStep
  split
  · intro q hq
    rcases mem_dictSet hq with h1 | h1
    · exact hacc q h1
    · subst h1
      intro p hp
      simp only [tsInvariant, Option.getD_some] at hp ⊢
      have hmem := List.mem_filter.mp hp
      refine hld p hmem.1 ?_
      intro he
      have := hmem.2
      rw [he] at this
      simp at this
  · exact hacc

/-- The per-locale body of `get_local_attrs` preserves the invariant
when its locale dictionary is well-formed. -/
theorem processLocale_invariant (ind : Indicator) (app : Bool)
    (names : Option (List String)) (fm : Bool)
    (attrs : List (String × TranslatableStr)) (ln : String) (ld : LocDict)
    (hld : ld.wellFormed) (hattrs : ∀ q ∈ attrs, tsInvariant q.2) :
    ∀ q ∈ processLocale ind app names fm attrs ln ld, tsInvariant q.2 := by
  simp only [processLocale]
  cases hla : dictGet? ld.indicators (ind.module1 ++ "." ++ ind.identifier) with
  | none => exact hattrs
  | some la =>
    exact foldl_preserve (fun acc => ∀ q ∈ acc, tsInvariant q.2)
      (attrStep ind names fm (if app then "_" ++ ln else "") ld la)
      (fun acc name hacc =>
        attrStep_invariant ind names fm _ ld la acc name hld hacc)
      TRANSLATABLE_ATTRS attrs hattrs

/-- Every dictionary produced by a successful `get_local_dict` is
well-formed when the environment serves only well-formed dictionaries
and the argument, if a `(tag, dict)` pair, carries one. -/
theorem get_local_dict_wellFormed (env : LocaleEnv)
    (hb : ∀ t, (env.bundled t).wellFormed) (hf : ∀ p, (env.fileDict p).wellFormed)
    (l : LocaleSpec) (hl : specWellFormed l) (ln : String) (ld : LocDict)
    (h : get_local_dict env l = .ok (ln, ld)) : ld.wellFormed := by
  cases l with
  | tag t =>
    simp only [get_local_dict] at h
    cases hg : get_best_locale env.available t with
    | none =>
      rw [hg] at h
      simp at h
    | some loc =>
      rw [hg] at h
      simp only [Except.ok.injEq, Prod.mk.injEq] at h
      obtain ⟨h1, h2⟩ := h
      subst h2
      exact hb loc
  | dictPair t d =>
    simp only [get_local_dict] at h
    simp only [Except.ok.injEq, Prod.mk.injEq] at h
    obtain ⟨h1, h2⟩ := h
    subst h2
    exact hl
  | pathPair t p =>
    simp only [get_local_dict] at h
    simp only [Except.ok.injEq, Prod.mk.injEq] at h
    obtain ⟨h1, h2⟩ := h
    subst h2
    exact hf p

/-- The locale recursion of `get_local_attrs` preserves the invariant
of the accumulated attributes. -/
theorem go_invariant (env : LocaleEnv) (ind : Indicator) (app : Bool)
    (names : Option (List String)) (fm : Bool)
    (hb : ∀ t, (env.bundled t).wellFormed) (hf : ∀ p, (env.fileDict p).wellFormed) :
    ∀ (locs : List LocaleSpec) (attrs : List (String × TranslatableStr)),
      (∀ l ∈ locs, specWellFormed l) → (∀ q ∈ attrs, tsInvariant q.2) →
      ∀ res, get_local_attrs_go env ind app names fm locs attrs = .ok res →
        ∀ q ∈ res, tsInvariant q.2 := by
  intro locs
  induction locs with
  | nil =>
    intro attrs _ hattrs res hres
    unfold get_local_attrs_go at hres
    simp only [Except.ok.injEq] at hres
    subst hres
    exact hattrs
  | cons l ls ih =>
    intro attrs hl hattrs res hres
    unfold get_local_attrs_go at hres
    cases hgd : get_local_dict env l with
    | error e =>
      rw [hgd] at hres
      simp at hres
    | ok pr =>
      obtain ⟨ln, ld⟩ := pr
      rw [hgd] at hres
      exact ih (processLocale ind app names fm attrs ln ld)
        (fun x hx => hl x (List.mem_cons_of_mem l hx))
        (processLocale_invariant ind app names fm attrs ln ld
          (get_local_dict_wellFormed env hb hf l (hl l (List.mem_cons_self l ls)) ln ld hgd)
          hattrs)
        res hres

/-- C8: every translatable string constructed by `get_local_attrs`
satisfies the cardinality invariant — each translation entry of its
table is as long as its modifier list — provided the locale
dictionaries supplied (bundled resources, loaded files, and `(tag,
dict)` arguments) are well-formed per the documented file format;
`TranslatableStr.__init__` itself checks nothing. -/
theorem get_local_attrs_invariant (env : LocaleEnv) (ind : Indicator)
    (locales LOCALES : List LocaleSpec) (names : Option (List String))
    (fm app : Bool)
    (hb : ∀ t, (env.bundled t).wellFormed)
    (hf : ∀ p, (env.fileDict p).wellFormed)
    (hl : ∀ l ∈ (if locales.isEmpty then LOCALES else locales), specWellFormed l)
    (res : List (String × TranslatableStr))
    (hres : get_local_attrs env ind locales LOCALES names fm app = .ok res) :
    ∀ q ∈ res, tsInvariant q.2 := by
  simp only [get_local_attrs] at hres
  split at hres
  · next hE =>
    rw [if_pos hE] at hl
    split at hres
    · simp at hres
    · exact go_invariant env ind app names fm hb hf LOCALES [] hl (by simp) res hres
  · next hE =>
    rw [if_neg hE] at hl
    split at hres
    · simp at hres
    · exact go_invariant env ind app names fm hb hf locales [] hl (by simp) res hres

/-- Witness for C8 at a concrete well-formed environment: the
translatable string stored under `long_name_fr` for the indicator
`atmos.gdd` in the bundled locale `fr` carries a `YS` entry exactly as
long as its two modifiers. -/
theorem get_local_attrs_invariant_witness :
    (["annuel", "annuelle"] : List String).length = tsW.modifiers.length := by
  refine get_local_attrs_invariant envW indW [LocaleSpec.tag "fr"] [] none true true
    ?_ ?_ ?_ resW (by rfl) ("long_name_fr", tsW) (by decide)
    ("YS", ["annuel", "annuelle"]) (by decide)
  · intro t
    show LocDict.wellFormed dW
    simp only [LocDict.wellFormed]
    decide
  · intro p
    show LocDict.wellFormed dW
    simp only [LocDict.wellFormed]
    decide
  · intro l hl
    simp at hl
    subst hl
    exact trivial
